import Mathlib

/-!
# Verification of the `sensors` (ESP / SmartSensors) core against its specification

This file gives a shallow embedding of the core of the repository:

* `src/Xcode/ESP/src/tuneable.h` — the `Tuneable` class (`toString` / `fromString`);
* `src/Xcode/SmartSensors/src/ofApp.cpp` — the session controller
  (`keyPressed`, `keyReleased`, `update`, `exit`);
* `src/unnamed/part_000` — the training-sample checker declarations
  (`TrainingSampleCheckerResult`, `useTrainingSampleChecker`).

C++ `int` is modelled as `ℤ` (with the 32-bit clamping of `istream` extraction
made explicit where the source performs it), C++ `double` as `ℚ` — an exact
idealization of IEEE double values: every value the claims mention (5, 2.5,
true, 2⁻⁴⁰) is exactly representable, and the decimal formatting / parsing
performed by the source is exact rational arithmetic here.  `std::string` is
modelled as `String` / `List Char`.  Stateful handlers become functions from an
explicit state record to a new state, paired with a trace of the observable
effects the handler performs (thread joins, train calls, UI writes, callback
invocations), transcribed statement by statement from the source.
-/

/-! ## Characters, digits and decimal strings

Helpers mirroring the behaviour of `std::to_string` and `istream` extraction
(`operator>>`) used by `tuneable.h`.  All of them are structurally recursive so
that concrete instances evaluate by `decide`.
-/

/-- The characters the C locale treats as whitespace (`isspace`), which
`istream` formatted extraction skips. -/
def isSpaceChar (c : Char) : Bool :=
  c = ' ' || c = '\t' || c = '\n' || c = '\x0b' || c = '\x0c' || c = '\r'

/-- Decimal digit characters `'0'`..`'9'`. -/
def isDigitChar (c : Char) : Bool :=
  48 ≤ c.toNat && c.toNat ≤ 57

/-- Numeric value of a digit character. -/
def charDigit (c : Char) : ℕ := c.toNat - 48

/-- The digit character for a value `d < 10`. -/
def digitChar (d : ℕ) : Char := Char.ofNat (48 + d)

/-- Decimal digits of `n`, least significant first; the first argument is
structural fuel (any `fuel ≥ n` gives the digits of `n`). -/
def digitsRevGo : ℕ → ℕ → List ℕ
  | 0, _ => []
  | fuel + 1, n => if n = 0 then [] else n % 10 :: digitsRevGo fuel (n / 10)

/-- Decimal digits of `n`, least significant first. -/
def digitsRev (n : ℕ) : List ℕ := digitsRevGo n n

/-- Value of a most-significant-first digit list (how `istream` extraction
accumulates digits). -/
def digitsVal (ds : List ℕ) : ℕ := ds.foldl (fun acc d => acc * 10 + d) 0

/-- Decimal characters of `n`, most significant first (as printed by
`std::to_string`). -/
def natChars (n : ℕ) : List Char :=
  if n = 0 then ['0'] else ((digitsRev n).map digitChar).reverse

/-- `std::to_string` on a nonnegative integer. -/
def natString (n : ℕ) : String := String.mk (natChars n)

/-- `std::to_string(int)`: optional minus sign followed by decimal digits. -/
def intString (v : ℤ) : String := (if v < 0 then "-" else "") ++ natString v.natAbs

/-! ## The `Tuneable` class (`src/Xcode/ESP/src/tuneable.h`)

A `Tuneable` binds externally-owned state (`value_ptr_`, a type-erased pointer)
of kind `INT_RANGE`, `DOUBLE_RANGE` or `BOOL` (the enum also lists `SET`, but
no constructor of the class produces it, so no reachable object has that kind).
Each constructor stores the pointer together with the matching `type_` tag, so
in every state reachable through the class's interface the tag and the pointee
type agree; `TuneableValue` models the tag and the bound cell jointly.  The
`std::function` callback members (`int_cb_`, `double_cb_`, `bool_cb_`) and the
UI widget pointer are not part of the state; their use is recorded in the
effect trace instead. -/

inductive TuneableValue
  | intVal (v : ℤ)
  | doubleVal (v : ℚ)
  | boolVal (v : Bool)
  deriving DecidableEq

structure Tuneable where
  value_ : TuneableValue
  min_ : ℚ
  max_ : ℚ
  title_ : String
  description_ : String
  deriving DecidableEq

/-- Observable side effects of `Tuneable` member functions: writes through
`value_ptr_`, UI-widget updates, and invocations of the registered callbacks.
`fromString` may emit writes and UI updates; only the slider/toggle event
handlers (`onSliderEvent` / `onToggleEvent`) would emit callback invocations. -/
inductive TuneableEffect
  | writeInt (v : ℤ)
  | writeDouble (v : ℚ)
  | writeBool (v : Bool)
  | setSliderValue
  | setToggleEnabled
  | callIntCb (v : ℤ)
  | callDoubleCb (v : ℚ)
  | callBoolCb (v : Bool)
  deriving DecidableEq

/-- Whether an effect is an invocation of a registered callback. -/
def TuneableEffect.isCallbackCall : TuneableEffect → Bool
  | callIntCb _ => true
  | callDoubleCb _ => true
  | callBoolCb _ => true
  | _ => false

/-- `istream >> std::string`: skip whitespace, then take characters up to the
next whitespace.  Returns the extracted word and the remaining stream. -/
def extractWord (cs : List Char) : List Char × List Char :=
  let cs2 := cs.dropWhile isSpaceChar
  (cs2.takeWhile (fun c => !isSpaceChar c), cs2.dropWhile (fun c => !isSpaceChar c))

/-- `INT_MAX` for the 32-bit `int` of the target platforms. -/
def int32max : ℤ := 2147483647

/-- `INT_MIN` for the 32-bit `int` of the target platforms. -/
def int32min : ℤ := -2147483648

/-- Scan an optional leading `'-'` / `'+'` sign (the sign stage of `num_get`
formatted extraction): whether a minus was seen, and the remaining stream. -/
def splitSign : List Char → Bool × List Char
  | [] => (false, [])
  | c :: rest =>
    if c = '-' then (true, rest) else if c = '+' then (false, rest) else (false, c :: rest)

/-- `istream >> (int&)`: skip whitespace, optional sign, decimal digits.
Since C++11 a failed extraction writes `0`, and an out-of-range value is
clamped to `INT_MAX` / `INT_MIN`; this returns the value written to `*p`. -/
def extractInt (cs : List Char) : ℤ :=
  let s1 := splitSign (cs.dropWhile isSpaceChar)
  let ds := (s1.2.takeWhile isDigitChar).map charDigit
  if ds = [] then 0
  else
    let v : ℤ := if s1.1 then -(digitsVal ds : ℤ) else (digitsVal ds : ℤ)
    if v < int32min then int32min else if int32max < v then int32max else v

/-- The pieces of a decimal floating-point literal as scanned by
`istream >> (double&)`: sign, integer-part digits, fraction digits (count
kept to recover their weight), optional exponent.  `ok` is false when the
scan fails (no mantissa digits, or an `e` with no exponent digits), in which
case C++11 extraction writes `0`. -/
structure FloatParse where
  neg : Bool
  ipart : ℕ
  fpart : ℕ
  flen : ℕ
  eneg : Bool
  expVal : ℕ
  ok : Bool
  deriving DecidableEq

/-- Scan an optional `'.'`-introduced fraction-digit run (the fraction stage
of `num_get` extraction): the fraction digits and the remaining stream. -/
def splitDot : List Char → List ℕ × List Char
  | [] => ([], [])
  | c :: rest =>
    if c = '.' then ((rest.takeWhile isDigitChar).map charDigit, rest.dropWhile isDigitChar)
    else ([], c :: rest)

/-- Scan a decimal floating-point literal (the decimal forms accepted by
`num_get`; hexadecimal floats and `inf`/`nan`, which no `Tuneable` text ever
contains and which ℚ cannot represent, are outside the model). -/
def parseFloatChars (cs : List Char) : FloatParse :=
  let s1 := splitSign (cs.dropWhile isSpaceChar)
  let ids := (s1.2.takeWhile isDigitChar).map charDigit
  let r1 := s1.2.dropWhile isDigitChar
  let fr := splitDot r1
  if ids = [] ∧ fr.1 = [] then
    { neg := s1.1, ipart := 0, fpart := 0, flen := 0, eneg := false, expVal := 0, ok := false }
  else
    match fr.2 with
    | c :: rest =>
      if c = 'e' ∨ c = 'E' then
        let s2 := splitSign rest
        let eds := (s2.2.takeWhile isDigitChar).map charDigit
        if eds = [] then
          { neg := s1.1, ipart := digitsVal ids, fpart := digitsVal fr.1, flen := fr.1.length,
            eneg := false, expVal := 0, ok := false }
        else
          { neg := s1.1, ipart := digitsVal ids, fpart := digitsVal fr.1, flen := fr.1.length,
            eneg := s2.1, expVal := digitsVal eds, ok := true }
      else
        { neg := s1.1, ipart := digitsVal ids, fpart := digitsVal fr.1, flen := fr.1.length,
          eneg := false, expVal := 0, ok := true }
    | [] =>
      { neg := s1.1, ipart := digitsVal ids, fpart := digitsVal fr.1, flen := fr.1.length,
        eneg := false, expVal := 0, ok := true }

/-- The rational value denoted by a scanned floating-point literal (`0` when
the scan failed, as C++11 extraction then writes `0`). -/
def floatParseVal (p : FloatParse) : ℚ :=
  if p.ok then
    (if p.neg then -1 else 1) * ((p.ipart : ℚ) + (p.fpart : ℚ) / 10 ^ p.flen)
      * 10 ^ (if p.eneg then -(p.expVal : ℤ) else (p.expVal : ℤ))
  else 0

/-- `istream >> (double&)`: the value written to `*p`. -/
def extractDouble (cs : List Char) : ℚ := floatParseVal (parseFloatChars cs)

/-- Round to the nearest integer, ties to even: the rounding `snprintf "%f"`
applies (under the default IEEE rounding mode) to the exact value of the
argument when producing 6 fraction digits. -/
def roundHalfEven (q : ℚ) : ℤ :=
  if q - ⌊q⌋ < 1/2 then ⌊q⌋
  else if (1 : ℚ)/2 < q - ⌊q⌋ then ⌊q⌋ + 1
  else if ⌊q⌋ % 2 = 0 then ⌊q⌋ else ⌊q⌋ + 1

/-- The six fraction digits printed by `%f` for a fixed-point value
`n = round(|x| * 10^6)` (zero-padded on the left). -/
def fracSixChars (m : ℕ) : List Char :=
  List.replicate (6 - (natChars m).length) '0' ++ natChars m

/-- `std::to_string(double)`, i.e. `snprintf "%f"`: optional minus sign,
integer part, `'.'`, exactly six fraction digits, rounding the exact value
to the nearest multiple of 10⁻⁶ (ties to even). -/
def doubleString (q : ℚ) : String :=
  let n := (roundHalfEven (|q| * 1000000)).toNat
  (if q < 0 then "-" else "") ++ natString (n / 1000000) ++ "." ++
    String.mk (fracSixChars (n % 1000000))

/-- `Tuneable::toString` (tuneable.h:90-110): switch on `type_`, read the
bound value through the matching cast, prepend the kind tag. -/
def Tuneable.toString (t : Tuneable) : String :=
  match t.value_ with
  | TuneableValue.intVal v => "INT " ++ intString v
  | TuneableValue.doubleVal q => "DOUBLE " ++ doubleString q
  | TuneableValue.boolVal b => "BOOL " ++ (if b then "true" else "false")

/-- Result of `Tuneable::fromString`: the updated object (with the bound
cell's new contents), the C++ return value, and the trace of effects the
call performed. -/
structure FromStringResult where
  tuneable : Tuneable
  retval : Bool
  effects : List TuneableEffect
  deriving DecidableEq

/-- `Tuneable::fromString` (tuneable.h:112-143): extract the first word; on
`"INT"` / `"DOUBLE"` / `"BOOL"` extract a value of that kind and write it
through `value_ptr_` (and update the UI widget in non-HEADLESS builds); on
any other word do nothing.  Always ends in `return false`.

When the word's kind differs from the kind the object was constructed with,
the C++ writes through a wrongly-typed cast of `value_ptr_` (type punning,
undefined behaviour); the model renders that write as replacing the cell's
contents with the newly-typed value. -/
def Tuneable.fromString (t : Tuneable) (str : String) : FromStringResult :=
  let w := extractWord str.toList
  if w.1 = String.toList "INT" then
    let v := extractInt w.2
    { tuneable := { t with value_ := TuneableValue.intVal v }, retval := false,
      effects := [TuneableEffect.writeInt v, TuneableEffect.setSliderValue] }
  else if w.1 = String.toList "DOUBLE" then
    let v := extractDouble w.2
    { tuneable := { t with value_ := TuneableValue.doubleVal v }, retval := false,
      effects := [TuneableEffect.writeDouble v, TuneableEffect.setSliderValue] }
  else if w.1 = String.toList "BOOL" then
    let w2 := extractWord w.2
    let b := w2.1 == String.toList "true"
    { tuneable := { t with value_ := TuneableValue.boolVal b }, retval := false,
      effects := [TuneableEffect.writeBool b, TuneableEffect.setToggleEnabled] }
  else
    { tuneable := t, retval := false, effects := [] }

/-! ## The session controller (`src/Xcode/SmartSensors/src/ofApp.cpp`)

The handlers below are transcribed statement by statement from `ofApp.cpp`.
External collaborators (the GRT pipeline and dataset, the stream, file
dialogs) enter as oracle parameters and as events in the handlers' traces;
on-screen plotting (`plot_*` members) is rendering and stays outside the
state. -/

/-- Modelled from the spec: the Training Dataset — GRT's
`TimeSeriesClassificationData` (`training_data_`), an external collaborator
whose implementation is not part of this repository.  Spec §3/§4.3: an
ordered collection of labeled samples with a configured dimensionality. -/
structure TrainingData where
  numDimensions : ℕ
  samples : List (ℤ × List (List ℚ))
  deriving DecidableEq

/-- Number of columns of a GRT matrix built by `push_back`-ing equal-length
rows (0 when the matrix is empty). -/
def seqNumCols : List (List ℚ) → ℕ
  | [] => 0
  | row :: _ => row.length

/-- Modelled from the spec: `TrainingDataset.addSample` (external GRT call,
spec §4.3) — appends a labeled sample and updates the per-label counter,
failing (dataset unchanged) only when the sequence's dimensionality
mismatches the dataset's configured dimensionality. -/
def TrainingData.addSample (td : TrainingData) (label : ℤ) (seq : List (List ℚ)) : TrainingData :=
  if seqNumCols seq = td.numDimensions then
    { td with samples := td.samples ++ [(label, seq)] }
  else td

/-- Modelled from the spec: `TrainingDataset.classTracker` (external GRT
call, spec §4.3) — for each label, its sample count. -/
def TrainingData.classTracker (td : TrainingData) (label : ℤ) : ℕ :=
  (td.samples.filter fun s => s.1 == label).length

/-- The `Fragment` tab enum of ofApp (`fragment_`). -/
inductive Fragment
  | PIPELINE
  | TRAINING
  | ANALYSIS
  deriving DecidableEq

/-- Observable events performed by the ofApp handlers. -/
inductive Ev
  | joinTrainingThread
  | trainStart
  | trainEnd
  | loadTrainingDataDialog
  | streamStart
  | streamStop
  | saveDialog
  | saveTrainingData
  | removeSaveListener
  | removeLoadListener
  | plotInputUpdate
  | preprocessData
  | readPreprocessedData
  | readFeatureData
  | predictPoint
  deriving DecidableEq

/-- The ofApp state touched by the modelled handlers: the recording members,
the dataset, the UI flags, plus the observable state of the external
collaborators (`istream_->hasStarted()`, `training_thread_.joinable()`,
`pipeline_->getTrained()`). -/
structure AppState where
  is_recording_ : Bool
  label_ : ℤ
  sample_data_ : List (List ℚ)
  training_data_ : TrainingData
  should_save_training_data_ : Bool
  fragment_ : Fragment
  gui_hide_ : Bool
  streamStarted : Bool
  input_data_ : List (List ℚ)
  trainingThreadJoinable : Bool
  pipelineTrained : Bool
  deriving DecidableEq

/-- `ofApp::keyPressed` (ofApp.cpp:419-477).  `trainResult` is the outcome of
the external `pipeline_->train(training_data_)` call made by `training_func`
(the pipeline's `trained` flag reflects it); `loadedData` is the dataset the
external load dialog of `loadTrainingData()` produces.  Lines 420-426 start a
recording on a digit key when none is active; the switch at lines 428-476 has
no case for the digit keys.  In the `'t'` case the prior training thread is
joined when joinable and `training_func()` then runs synchronously on the
caller (the source calls it directly — see the TODO at ofApp.cpp:446 — so
`trainStart`/`trainEnd` happen inside the handler and no new thread is left
joinable). -/
def keyPressed (trainResult : Bool) (loadedData : TrainingData)
    (st : AppState) (key : ℤ) : AppState × List Ev :=
  let st1 := if 49 ≤ key ∧ key ≤ 57 ∧ st.is_recording_ = false then
      { st with is_recording_ := true, label_ := key - 48, sample_data_ := [] }
    else st
  if key = 116 then
    ({ st1 with trainingThreadJoinable := false,
                pipelineTrained := trainResult,
                fragment_ := if trainResult then Fragment.TRAINING else st1.fragment_ },
      (if st1.trainingThreadJoinable then [Ev.joinTrainingThread] else [])
        ++ [Ev.trainStart, Ev.trainEnd])
  else if key = 108 then
    ({ st1 with training_data_ := loadedData, should_save_training_data_ := false },
      [Ev.loadTrainingDataDialog])
  else if key = 104 then
    ({ st1 with gui_hide_ := !st1.gui_hide_ }, [])
  else if key = 115 then
    ({ st1 with streamStarted := true }, [Ev.streamStart])
  else if key = 101 then
    ({ st1 with streamStarted := false, input_data_ := [] }, [Ev.streamStop])
  else if key = 80 then
    ({ st1 with fragment_ := Fragment.PIPELINE }, [])
  else if key = 84 then
    ({ st1 with fragment_ := Fragment.TRAINING }, [])
  else if key = 65 then
    ({ st1 with fragment_ := Fragment.ANALYSIS }, [])
  else (st1, [])

/-- `ofApp::keyReleased` (ofApp.cpp:504-517): unconditionally clear the
recording flag; on a digit key `'1'`..`'9'`, add the current sample buffer to
the training data under the stored `label_` and mark the data as needing a
save (the sample-plot updates of lines 509-513 are rendering, outside the
model). -/
def keyReleased (st : AppState) (key : ℤ) : AppState :=
  let st1 := { st with is_recording_ := false }
  if 49 ≤ key ∧ key ≤ 57 then
    { st1 with training_data_ := st1.training_data_.addSample st1.label_ st1.sample_data_,
               should_save_training_data_ := true }
  else st1

/-- The teardown part of `ofApp::exit` (ofApp.cpp:397-410): stop the stream,
optionally save the training data through the system dialog (`saveAccepted`
is the dialog result's `bSuccess`), remove the two pipeline-button
listeners. -/
def exitTeardown (saveAccepted : Bool) (st : AppState) : List Ev :=
  [Ev.streamStop] ++
    (if st.should_save_training_data_ then
      [Ev.saveDialog] ++ (if saveAccepted then [Ev.saveTrainingData] else [])
    else []) ++
    [Ev.removeSaveListener, Ev.removeLoadListener]

/-- `ofApp::exit` (ofApp.cpp:393-411) as its event trace: join the training
thread if it is joinable, then the teardown. -/
def ofAppExit (saveAccepted : Bool) (st : AppState) : List Ev :=
  (if st.trainingThreadJoinable then [Ev.joinTrainingThread] else [])
    ++ exitTeardown saveAccepted st

/-- One iteration of the row loop of `ofApp::update` (ofApp.cpp:186-227):
always update the input plot; when `istream_->hasStarted()`, run
`pipeline_->preProcessData` and read the per-stage pre-processed / feature
outputs for plotting; while recording, push the point onto `sample_data_`
(no observable event); when `pipeline_->getTrained()`, run `predict` and
read the prediction outputs.  Only `sample_data_` changes. -/
def updateRow (st : AppState) (row : List ℚ) : AppState × List Ev :=
  ({ st with sample_data_ :=
      if st.is_recording_ then st.sample_data_ ++ [row] else st.sample_data_ },
   [Ev.plotInputUpdate]
     ++ (if st.streamStarted then
          [Ev.preprocessData, Ev.readPreprocessedData, Ev.readFeatureData] else [])
     ++ (if st.pipelineTrained then [Ev.predictPoint] else []))

/-- The row loop of `ofApp::update` over a row list, keeping each
iteration's event trace separately. -/
def updateRows (st : AppState) : List (List ℚ) → AppState × List (List Ev)
  | [] => (st, [])
  | row :: rest =>
    let r1 := updateRow st row
    let r2 := updateRows r1.1 rest
    (r2.1, r1.2 :: r2.2)

/-- `ofApp::update` (ofApp.cpp:184-228): drain the buffered `input_data_`
rows, one iteration per row (the `input_data_mutex_` acquisition is the
cross-thread handoff, outside this single-thread model). -/
def ofAppUpdate (st : AppState) : AppState × List (List Ev) := updateRows st st.input_data_

/-- The results of `TrainingSampleCheckerResult` (src/unnamed/part_000:23-27). -/
inductive CheckerOutcome
  | SUCCESS
  | WARNING
  | FAILURE
  deriving DecidableEq

/-- `TrainingSampleCheckerResult` (src/unnamed/part_000): a result kind plus
a human-readable message (the per-severity default messages are defined
outside src/ and play no role here). -/
structure TrainingSampleCheckerResult where
  result : CheckerOutcome
  message : String

/-- A registered training-sample checker (`TrainingSampleChecker`,
src/unnamed/part_000:54): a function from the recorded sample matrix to a
check result. -/
def TrainingSampleChecker := List (List ℚ) → TrainingSampleCheckerResult

/-- Change an event causes in the number of in-flight `train` calls. -/
def trainDelta : Ev → ℤ
  | Ev.trainStart => 1
  | Ev.trainEnd => -1
  | _ => 0

/-- Total train-call balance of a trace. -/
def sumTrainDelta (t : List Ev) : ℤ := (t.map trainDelta).sum

/-- Scanning `t` from `c` in-flight `train` calls, the in-flight count never
exceeds 1. -/
def trainSerialFrom : ℤ → List Ev → Bool
  | _, [] => true
  | c, e :: rest => (decide (c + trainDelta e ≤ 1)) && trainSerialFrom (c + trainDelta e) rest

/-- At no point of the trace is more than one `train` call in flight. -/
def trainSerial (t : List Ev) : Bool := trainSerialFrom 0 t

/-- Run a sequence of key presses; each press carries the outcome its
(potential) training call would produce and the dataset its (potential) load
dialog would return. -/
def runKeys (st : AppState) : List (ℤ × Bool × TrainingData) → AppState × List Ev
  | [] => (st, [])
  | (key, r, ld) :: rest =>
    let r1 := keyPressed r ld st key
    let r2 := runKeys r1.1 rest
    (r2.1, r1.2 ++ r2.2)

/-- A registered checker that returns `FAILURE` for every sample sequence. -/
def rejectAllChecker : TrainingSampleChecker := fun _ =>
  { result := CheckerOutcome.FAILURE,
    message := "Error: rejected." }

/-! ## Theorems -/

/-! ## Lemmas about digits and decimal strings -/

theorem digitsRevGo_lt (fuel n : ℕ) : ∀ d ∈ digitsRevGo fuel n, d < 10 := by
  induction fuel generalizing n with
  | zero => intro d hd; simp [digitsRevGo] at hd
  | succ fuel ih =>
    intro d hd
    by_cases h0 : n = 0
    · simp [digitsRevGo, h0] at hd
    · simp only [digitsRevGo, if_neg h0, List.mem_cons] at hd
      rcases hd with rfl | hd
      · exact Nat.mod_lt _ (by norm_num)
      · exact ih _ d hd

theorem digitsRevGo_foldr (fuel n : ℕ) (h : n ≤ fuel) :
    (digitsRevGo fuel n).foldr (fun d acc => acc * 10 + d) 0 = n := by
  induction fuel generalizing n with
  | zero =>
    have h0 : n = 0 := by omega
    subst h0; simp [digitsRevGo]
  | succ fuel ih =>
    by_cases h0 : n = 0
    · simp [digitsRevGo, h0]
    · have hdiv : n / 10 ≤ fuel := by
        have := Nat.div_lt_self (Nat.pos_of_ne_zero h0) (by norm_num : 1 < 10)
        omega
      simp only [digitsRevGo, if_neg h0, List.foldr_cons, ih (n / 10) hdiv]
      omega

theorem digitsRevGo_ne_nil (fuel n : ℕ) (h1 : n ≠ 0) (h2 : n ≤ fuel) :
    digitsRevGo fuel n ≠ [] := by
  cases fuel with
  | zero => omega
  | succ fuel => simp [digitsRevGo, h1]

theorem digitChar_toNat {d : ℕ} (h : d < 10) : (digitChar d).toNat = 48 + d := by
  interval_cases d <;> decide

theorem charDigit_digitChar {d : ℕ} (h : d < 10) : charDigit (digitChar d) = d := by
  simp [charDigit, digitChar_toNat h]

theorem isDigitChar_digitChar {d : ℕ} (h : d < 10) : isDigitChar (digitChar d) = true := by
  simp [isDigitChar, digitChar_toNat h]; omega

theorem natChars_all_digits (n : ℕ) : ∀ c ∈ natChars n, isDigitChar c = true := by
  intro c hc
  by_cases h0 : n = 0
  · simp [natChars, h0] at hc; subst hc; decide
  · simp only [natChars, if_neg h0, List.mem_reverse, List.mem_map] at hc
    obtain ⟨d, hd, rfl⟩ := hc
    exact isDigitChar_digitChar (digitsRevGo_lt _ _ d hd)

theorem natChars_ne_nil (n : ℕ) : natChars n ≠ [] := by
  by_cases h0 : n = 0
  · simp [natChars, h0]
  · simp only [natChars, if_neg h0]
    intro h
    rcases List.reverse_eq_nil_iff.mp h with h2
    exact digitsRevGo_ne_nil n n h0 le_rfl (List.map_eq_nil_iff.mp h2)

theorem digitsVal_natChars (n : ℕ) : digitsVal ((natChars n).map charDigit) = n := by
  by_cases h0 : n = 0
  · simp [natChars, h0, digitsVal, charDigit]
  · simp only [natChars, if_neg h0, digitsVal]
    rw [List.map_reverse, List.map_map, List.foldl_reverse]
    have hgen : ∀ l : List ℕ, (∀ d ∈ l, d < 10) → l.map (charDigit ∘ digitChar) = l := by
      intro l hl
      induction l with
      | nil => rfl
      | cons a l ih =>
        simp only [List.map_cons, Function.comp_apply,
          charDigit_digitChar (hl a (List.mem_cons_self a l))]
        rw [ih fun b hb => hl b (List.mem_cons_of_mem a hb)]
    have hmap : (digitsRev n).map (charDigit ∘ digitChar) = digitsRev n :=
      hgen _ (digitsRevGo_lt _ _)
    rw [hmap]
    exact digitsRevGo_foldr n n le_rfl

theorem digitsRevGo_length_le (fuel n k : ℕ) (hf : n ≤ fuel) (hk : n < 10 ^ k) :
    (digitsRevGo fuel n).length ≤ k := by
  induction fuel generalizing n k with
  | zero => simp [digitsRevGo]
  | succ fuel ih =>
    by_cases h0 : n = 0
    · simp [digitsRevGo, h0]
    · have hkpos : k ≠ 0 := by
        intro hk0; subst hk0; simp at hk; omega
      obtain ⟨k', rfl⟩ := Nat.exists_eq_succ_of_ne_zero hkpos
      have hdivfuel : n / 10 ≤ fuel := by
        have := Nat.div_lt_self (Nat.pos_of_ne_zero h0) (by norm_num : 1 < 10)
        omega
      have hdivlt : n / 10 < 10 ^ k' := by
        rw [Nat.div_lt_iff_lt_mul (by norm_num : 0 < 10)]
        calc n < 10 ^ (k' + 1) := hk
        _ = 10 ^ k' * 10 := by ring
      simp only [digitsRevGo, if_neg h0, List.length_cons]
      have := ih (n / 10) k' hdivfuel hdivlt
      omega

theorem natChars_length_le_six {n : ℕ} (h : n < 1000000) : (natChars n).length ≤ 6 := by
  by_cases h0 : n = 0
  · simp [natChars, h0]
  · simp only [natChars, if_neg h0, List.length_reverse, List.length_map]
    exact digitsRevGo_length_le n n 6 le_rfl (by norm_num; omega)

theorem takeWhile_all {α : Type} (p : α → Bool) (l : List α)
    (h : ∀ a ∈ l, p a = true) : l.takeWhile p = l := by
  induction l with
  | nil => rfl
  | cons a l ih =>
    rw [List.takeWhile_cons, h a (List.mem_cons_self a l)]
    simp [ih fun b hb => h b (List.mem_cons_of_mem a hb)]

theorem dropWhile_all {α : Type} (p : α → Bool) (l : List α)
    (h : ∀ a ∈ l, p a = true) : l.dropWhile p = [] := by
  induction l with
  | nil => rfl
  | cons a l ih =>
    rw [List.dropWhile_cons, h a (List.mem_cons_self a l)]
    simp [ih fun b hb => h b (List.mem_cons_of_mem a hb)]

theorem takeWhile_boundary {α : Type} (p : α → Bool) (l₁ : List α) (c : α) (l₂ : List α)
    (h : ∀ a ∈ l₁, p a = true) (hc : p c = false) :
    (l₁ ++ c :: l₂).takeWhile p = l₁ := by
  induction l₁ with
  | nil => simp [List.takeWhile_cons, hc]
  | cons a l ih =>
    rw [List.cons_append, List.takeWhile_cons, h a (List.mem_cons_self a l)]
    simp [ih fun b hb => h b (List.mem_cons_of_mem a hb)]

theorem dropWhile_boundary {α : Type} (p : α → Bool) (l₁ : List α) (c : α) (l₂ : List α)
    (h : ∀ a ∈ l₁, p a = true) (hc : p c = false) :
    (l₁ ++ c :: l₂).dropWhile p = c :: l₂ := by
  induction l₁ with
  | nil => simp [List.dropWhile_cons, hc]
  | cons a l ih =>
    rw [List.cons_append, List.dropWhile_cons, h a (List.mem_cons_self a l)]
    simp [ih fun b hb => h b (List.mem_cons_of_mem a hb)]

theorem space_not_digit {c : Char} (h : isDigitChar c = true) : isSpaceChar c = false := by
  rcases hc : isSpaceChar c with _ | _
  · rfl
  · exfalso
    simp only [isSpaceChar, Bool.or_eq_true, decide_eq_true_eq] at hc
    rcases hc with ((((rfl | rfl) | rfl) | rfl) | rfl) | rfl <;> simp [isDigitChar] at h

/-! ## Claims C4, C8, C9: behaviour of `Tuneable::fromString` -/

/-- C4: `Tuneable::fromString` returns `false` (the failure indicator) for
every input string, regardless of whether the decode succeeded in writing the
bound value — its only `return` statement is the unconditional
`return false;` at tuneable.h:142. -/
theorem fromString_always_returns_false (t : Tuneable) (s : String) :
    (Tuneable.fromString t s).retval = false := by
  simp only [Tuneable.fromString]
  split_ifs <;> rfl

/-- C8: for every `Tuneable` and every input string, `fromString` performs no
invocation of the registered callbacks (`int_cb_` / `double_cb_` /
`bool_cb_` appear nowhere in its body), and every write it performs through
`value_ptr_` puts the decoded value directly into the bound external state —
the resulting bound value is exactly the written one. -/
theorem fromString_writes_without_callback (t : Tuneable) (s : String) :
    ((Tuneable.fromString t s).effects.all fun e => !e.isCallbackCall) = true ∧
    (∀ v : ℤ, TuneableEffect.writeInt v ∈ (Tuneable.fromString t s).effects →
      (Tuneable.fromString t s).tuneable.value_ = TuneableValue.intVal v) ∧
    (∀ v : ℚ, TuneableEffect.writeDouble v ∈ (Tuneable.fromString t s).effects →
      (Tuneable.fromString t s).tuneable.value_ = TuneableValue.doubleVal v) ∧
    (∀ v : Bool, TuneableEffect.writeBool v ∈ (Tuneable.fromString t s).effects →
      (Tuneable.fromString t s).tuneable.value_ = TuneableValue.boolVal v) := by
  simp only [Tuneable.fromString]
  split_ifs <;>
    refine ⟨rfl, ?_, ?_, ?_⟩ <;>
    intro v hv <;>
    simp_all [TuneableEffect.isCallbackCall]

/-- Witness for C8 at a concrete input: `fromString "INT 7"` on an int
tuneable emits the write of `7` and the resulting bound value is `7`. -/
theorem fromString_writes_without_callback_witness :
    TuneableEffect.writeInt 7 ∈
      (Tuneable.fromString ⟨TuneableValue.intVal 0, 0, 10, "t", "d"⟩ "INT 7").effects ∧
    (Tuneable.fromString ⟨TuneableValue.intVal 0, 0, 10, "t", "d"⟩ "INT 7").tuneable.value_
      = TuneableValue.intVal 7 :=
  ⟨by decide,
   (fromString_writes_without_callback ⟨TuneableValue.intVal 0, 0, 10, "t", "d"⟩ "INT 7").2.1
     7 (by decide)⟩

/-- C9: if the first word of the string given to `fromString` is none of
`"INT"`, `"DOUBLE"`, `"BOOL"`, the object is left untouched — no write
through `value_ptr_` occurs (no branch of tuneable.h:118-140 is taken). -/
theorem fromString_unknown_kind_no_write (t : Tuneable) (s : String)
    (h1 : (extractWord s.toList).1 ≠ String.toList "INT")
    (h2 : (extractWord s.toList).1 ≠ String.toList "DOUBLE")
    (h3 : (extractWord s.toList).1 ≠ String.toList "BOOL") :
    (Tuneable.fromString t s).tuneable = t ∧
    (Tuneable.fromString t s).effects = [] := by
  simp only [Tuneable.fromString]
  split_ifs <;> first | exact ⟨rfl, rfl⟩ | contradiction

/-- Witness for C9 at a concrete input: `fromString "FLOAT 3"` leaves a bool
tuneable unchanged. -/
theorem fromString_unknown_kind_no_write_witness :
    (extractWord "FLOAT 3".toList).1 ≠ String.toList "INT" ∧
    ((Tuneable.fromString ⟨TuneableValue.boolVal true, 0, 0, "t", "d"⟩ "FLOAT 3").tuneable
      = ⟨TuneableValue.boolVal true, 0, 0, "t", "d"⟩ ∧
     (Tuneable.fromString ⟨TuneableValue.boolVal true, 0, 0, "t", "d"⟩ "FLOAT 3").effects = []) :=
  ⟨by decide,
   fromString_unknown_kind_no_write ⟨TuneableValue.boolVal true, 0, 0, "t", "d"⟩ "FLOAT 3"
     (by decide) (by decide) (by decide)⟩

/-! ## Round-trip lemmas for the `Tuneable` text encoding (claim C2) -/

theorem toList_append (a b : String) : (a ++ b).toList = a.toList ++ b.toList := rfl

theorem toList_natString (n : ℕ) : (natString n).toList = natChars n := rfl

theorem char_ne_of_digit {a : Char} (c : Char) (ha : isDigitChar a = true)
    (hc : isDigitChar c = false) : a ≠ c := by
  rintro rfl
  rw [ha] at hc
  cases hc

theorem splitSign_digit {a : Char} (t : List Char) (ha : isDigitChar a = true) :
    splitSign (a :: t) = (false, a :: t) := by
  rw [splitSign]
  rw [if_neg (char_ne_of_digit '-' ha (by decide)), if_neg (char_ne_of_digit '+' ha (by decide))]

theorem extractWord_boundary (w : List Char) (c : Char) (l : List Char)
    (hw : ∀ a ∈ w, (!isSpaceChar a) = true) (hne : w ≠ []) (hc : isSpaceChar c = true) :
    extractWord (w ++ c :: l) = (w, c :: l) := by
  obtain ⟨a, w', rfl⟩ := List.exists_cons_of_ne_nil hne
  have ha : isSpaceChar a = false := by simpa using hw a (List.mem_cons_self a w')
  have hdrop : List.dropWhile isSpaceChar ((a :: w') ++ c :: l) = (a :: w') ++ c :: l := by
    rw [List.cons_append, List.dropWhile_cons, ha]
    simp [List.cons_append]
  simp only [extractWord, hdrop]
  rw [takeWhile_boundary _ _ _ _ hw (by simp [hc]), dropWhile_boundary _ _ _ _ hw (by simp [hc])]

theorem extractInt_space_nat (n : ℕ) (hn : (n : ℤ) ≤ int32max) :
    extractInt (' ' :: natChars n) = n := by
  obtain ⟨a, t, heq⟩ := List.exists_cons_of_ne_nil (natChars_ne_nil n)
  have ha : isDigitChar a = true := natChars_all_digits n a (heq ▸ List.mem_cons_self a t)
  have hdrop : (' ' :: natChars n).dropWhile isSpaceChar = natChars n := by
    rw [List.dropWhile_cons]
    simp only [show isSpaceChar ' ' = true from rfl, if_true]
    rw [heq, List.dropWhile_cons, space_not_digit ha]
    simp
  have hsgn : splitSign (natChars n) = (false, natChars n) := by
    rw [heq]
    exact splitSign_digit t ha
  have htake : (natChars n).takeWhile isDigitChar = natChars n :=
    takeWhile_all _ _ (natChars_all_digits n)
  have hds : (natChars n).map charDigit ≠ [] := by
    simp [natChars_ne_nil n]
  have h1 : ¬((n : ℤ) < int32min) := by
    have : (0 : ℤ) ≤ n := Int.natCast_nonneg n
    unfold int32min
    omega
  simp only [extractInt, hdrop, hsgn, htake]
  rw [if_neg hds]
  simp only [digitsVal_natChars, Bool.false_eq_true, if_false]
  rw [if_neg h1, if_neg (not_lt.mpr hn)]

theorem extractInt_space_neg_nat (n : ℕ) (hn : int32min ≤ -(n : ℤ)) :
    extractInt (' ' :: '-' :: natChars n) = -(n : ℤ) := by
  have hdrop : (' ' :: '-' :: natChars n).dropWhile isSpaceChar = '-' :: natChars n := by
    rw [List.dropWhile_cons]
    simp only [show isSpaceChar ' ' = true from rfl, if_true]
    rw [List.dropWhile_cons, show isSpaceChar '-' = false from rfl]
    simp
  have hsgn : splitSign ('-' :: natChars n) = (true, natChars n) := by
    rw [splitSign, if_pos rfl]
  have htake : (natChars n).takeWhile isDigitChar = natChars n :=
    takeWhile_all _ _ (natChars_all_digits n)
  have hds : (natChars n).map charDigit ≠ [] := by
    simp [natChars_ne_nil n]
  have h2 : ¬(int32max < -(n : ℤ)) := by
    have : (0 : ℤ) ≤ n := Int.natCast_nonneg n
    unfold int32max
    omega
  simp only [extractInt, hdrop, hsgn, htake]
  rw [if_neg hds]
  simp only [digitsVal_natChars, if_true]
  rw [if_neg (not_lt.mpr hn), if_neg h2]

theorem fromString_toString_int (t : Tuneable) (v : ℤ) (hv : t.value_ = TuneableValue.intVal v)
    (h1 : int32min ≤ v) (h2 : v ≤ int32max) :
    (Tuneable.fromString t (Tuneable.toString t)).tuneable.value_ = TuneableValue.intVal v := by
  have hts : (Tuneable.toString t).toList = ['I', 'N', 'T'] ++ ' ' :: (intString v).toList := by
    rw [Tuneable.toString, hv]
    rfl
  have hw : extractWord (Tuneable.toString t).toList = (['I', 'N', 'T'], ' ' :: (intString v).toList) := by
    rw [hts]
    exact extractWord_boundary _ _ _ (by decide) (by decide) (by decide)
  have hint : extractInt (' ' :: (intString v).toList) = v := by
    rcases lt_or_le v 0 with hneg | hpos
    · have : (intString v).toList = '-' :: natChars v.natAbs := by
        rw [intString, if_pos hneg]
        rfl
      rw [this]
      have habs : -(v.natAbs : ℤ) = v := by omega
      rw [extractInt_space_neg_nat v.natAbs (by omega), habs]
    · have : (intString v).toList = natChars v.natAbs := by
        rw [intString, if_neg (not_lt.mpr hpos)]
        rfl
      rw [this]
      have habs : (v.natAbs : ℤ) = v := by omega
      rw [extractInt_space_nat v.natAbs (by omega), habs]
  rw [Tuneable.fromString, hw]
  dsimp only
  rw [if_pos (by decide : (['I', 'N', 'T'] : List Char) = "INT".toList)]
  dsimp only
  rw [hint]

theorem fromString_toString_bool (t : Tuneable) (b : Bool)
    (hv : t.value_ = TuneableValue.boolVal b) :
    (Tuneable.fromString t (Tuneable.toString t)).tuneable.value_ = TuneableValue.boolVal b := by
  cases b
  · have hts : Tuneable.toString t = "BOOL false" := by
      rw [Tuneable.toString, hv]
      rfl
    rw [hts, Tuneable.fromString]
    rw [if_neg (by decide), if_neg (by decide), if_pos (by decide)]
    dsimp only
    decide
  · have hts : Tuneable.toString t = "BOOL true" := by
      rw [Tuneable.toString, hv]
      rfl
    rw [hts, Tuneable.fromString]
    rw [if_neg (by decide), if_neg (by decide), if_pos (by decide)]
    dsimp only
    decide

theorem roundHalfEven_intCast (k : ℤ) : roundHalfEven (k : ℚ) = k := by
  unfold roundHalfEven
  rw [Int.floor_intCast]
  norm_num

theorem fracSixChars_all_digits (f : ℕ) : ∀ c ∈ fracSixChars f, isDigitChar c = true := by
  intro c hc
  rw [fracSixChars, List.mem_append] at hc
  rcases hc with hc | hc
  · rw [List.eq_of_mem_replicate hc]
    decide
  · exact natChars_all_digits f c hc

theorem fracSixChars_length {f : ℕ} (hf : f < 1000000) : (fracSixChars f).length = 6 := by
  rw [fracSixChars, List.length_append, List.length_replicate]
  have := natChars_length_le_six hf
  omega

theorem foldl_zero_digits (k : ℕ) :
    List.foldl (fun acc d => acc * 10 + d) 0 (List.replicate k 0) = 0 := by
  induction k with
  | zero => rfl
  | succ k ih => simpa [List.replicate_succ] using ih

theorem fracSixChars_val (f : ℕ) : digitsVal ((fracSixChars f).map charDigit) = f := by
  rw [fracSixChars, List.map_append]
  show List.foldl _ 0 _ = f
  rw [List.foldl_append]
  have hrep : (List.replicate (6 - (natChars f).length) '0').map charDigit
      = List.replicate (6 - (natChars f).length) 0 := by
    rw [List.map_replicate]
    rfl
  rw [hrep, foldl_zero_digits]
  exact digitsVal_natChars f

theorem parseFloatChars_core (sgn : Bool) (i f : ℕ) (hf : f < 1000000) (pre : List Char)
    (hsgn : splitSign (pre.dropWhile isSpaceChar)
      = (sgn, natChars i ++ '.' :: fracSixChars f)) :
    parseFloatChars pre =
      { neg := sgn, ipart := i, fpart := f, flen := 6, eneg := false, expVal := 0, ok := true } := by
  have hids : (natChars i ++ '.' :: fracSixChars f).takeWhile isDigitChar = natChars i :=
    takeWhile_boundary _ _ _ _ (natChars_all_digits i) (by decide)
  have hr1 : (natChars i ++ '.' :: fracSixChars f).dropWhile isDigitChar = '.' :: fracSixChars f :=
    dropWhile_boundary _ _ _ _ (natChars_all_digits i) (by decide)
  have hfr : splitDot ('.' :: fracSixChars f) = ((fracSixChars f).map charDigit, []) := by
    rw [splitDot, if_pos rfl, takeWhile_all _ _ (fracSixChars_all_digits f),
      dropWhile_all _ _ (fracSixChars_all_digits f)]
  have hA : (natChars i).map charDigit ≠ [] := by
    simp [natChars_ne_nil i]
  have hcond : ¬((natChars i).map charDigit = [] ∧
      ((fracSixChars f).map charDigit : List ℕ) = []) := fun h => hA h.1
  simp only [parseFloatChars, hsgn, hids, hr1, hfr]
  rw [if_neg hcond]
  simp only [digitsVal_natChars, fracSixChars_val, List.length_map, fracSixChars_length hf]

theorem floatParseVal_plain (sgn : Bool) (i f : ℕ) :
    floatParseVal
      { neg := sgn, ipart := i, fpart := f, flen := 6, eneg := false, expVal := 0, ok := true } =
      (if sgn then -1 else 1) * ((i : ℚ) + (f : ℚ) / 1000000) := by
  rw [floatParseVal]
  norm_num

theorem toList_mk (l : List Char) : (String.mk l).toList = l := rfl

theorem doubleString_toList_core (sgnStr : String) (n : ℕ) :
    (sgnStr ++ natString (n / 1000000) ++ "." ++ String.mk (fracSixChars (n % 1000000))).toList
      = sgnStr.toList ++ (natChars (n / 1000000) ++ '.' :: fracSixChars (n % 1000000)) := by
  simp only [toList_append, toList_natString, toList_mk, List.append_assoc]
  rfl

theorem doubleString_toList (q : ℚ) (k : ℤ) (hk : |q| * 1000000 = (k : ℚ)) :
    (doubleString q).toList =
      (if q < 0 then "-" else "").toList ++
        (natChars (k.toNat / 1000000) ++ '.' :: fracSixChars (k.toNat % 1000000)) := by
  simp only [doubleString, hk, roundHalfEven_intCast]
  exact doubleString_toList_core _ _

theorem nat_div_mod_q (n : ℕ) :
    ((n / 1000000 : ℕ) : ℚ) + ((n % 1000000 : ℕ) : ℚ) / 1000000 = (n : ℚ) / 1000000 := by
  have h : (n : ℚ) = ((n / 1000000 : ℕ) : ℚ) * 1000000 + ((n % 1000000 : ℕ) : ℚ) := by
    exact_mod_cast (Nat.div_add_mod n 1000000).symm.trans (by ring)
  rw [h]
  field_simp

theorem fromString_toString_double (t : Tuneable) (q : ℚ)
    (hv : t.value_ = TuneableValue.doubleVal q) (hden : (q * 1000000).den = 1) :
    (Tuneable.fromString t (Tuneable.toString t)).tuneable.value_
      = TuneableValue.doubleVal q := by
  have hq6 : q * 1000000 = ((q * 1000000).num : ℚ) := ((Rat.den_eq_one_iff _).mp hden).symm
  set k : ℤ := (q * 1000000).num with hkdef
  have hts : (Tuneable.toString t).toList
      = ['D', 'O', 'U', 'B', 'L', 'E'] ++ ' ' :: (doubleString q).toList := by
    rw [Tuneable.toString, hv]
    rfl
  have hw : extractWord (Tuneable.toString t).toList
      = (['D', 'O', 'U', 'B', 'L', 'E'], ' ' :: (doubleString q).toList) := by
    rw [hts]
    exact extractWord_boundary _ _ _ (by decide) (by decide) (by decide)
  have hval : extractDouble (' ' :: (doubleString q).toList) = q := by
    rcases lt_or_le q 0 with hq | hq
    · have hkneg : k < 0 := by
        have h1 : q * 1000000 < 0 := mul_neg_of_neg_of_pos hq (by norm_num)
        rw [hq6] at h1
        exact_mod_cast h1
      have habs : |q| * 1000000 = ((-k : ℤ) : ℚ) := by
        rw [abs_of_neg hq, neg_mul, hq6]
        push_cast
        ring
      have hbody := doubleString_toList q (-k) habs
      rw [if_pos hq] at hbody
      have hbody' : (doubleString q).toList
          = '-' :: (natChars ((-k).toNat / 1000000) ++ '.' ::
              fracSixChars ((-k).toNat % 1000000)) := by
        rw [hbody]
        rfl
      have hdrop : (' ' :: (doubleString q).toList).dropWhile isSpaceChar
          = '-' :: (natChars ((-k).toNat / 1000000) ++ '.' ::
              fracSixChars ((-k).toNat % 1000000)) := by
        rw [List.dropWhile_cons]
        simp only [show isSpaceChar ' ' = true from rfl, if_true]
        rw [hbody', List.dropWhile_cons, show isSpaceChar '-' = false from rfl]
        simp
      have hsgn : splitSign ((' ' :: (doubleString q).toList).dropWhile isSpaceChar)
          = (true, natChars ((-k).toNat / 1000000) ++ '.' ::
              fracSixChars ((-k).toNat % 1000000)) := by
        rw [hdrop, splitSign, if_pos rfl]
      rw [extractDouble,
        parseFloatChars_core true _ _ (Nat.mod_lt _ (by norm_num)) _ hsgn,
        floatParseVal_plain]
      rw [nat_div_mod_q]
      have hcast : (((-k).toNat : ℕ) : ℚ) = -(k : ℚ) := by
        exact_mod_cast congrArg (fun z : ℤ => (z : ℚ)) (Int.toNat_of_nonneg (by omega))
      rw [hcast, ← hq6]
      simp
      ring
    · have hknn : 0 ≤ k := by
        have h1 : 0 ≤ q * 1000000 := mul_nonneg hq (by norm_num)
        rw [hq6] at h1
        exact_mod_cast h1
      have habs : |q| * 1000000 = (k : ℚ) := by
        rw [abs_of_nonneg hq]
        exact hq6
      have hbody := doubleString_toList q k habs
      rw [if_neg (not_lt.mpr hq)] at hbody
      have hbody' : (doubleString q).toList
          = natChars (k.toNat / 1000000) ++ '.' :: fracSixChars (k.toNat % 1000000) := by
        rw [hbody]
        rfl
      obtain ⟨a, tl, heq⟩ := List.exists_cons_of_ne_nil (natChars_ne_nil (k.toNat / 1000000))
      have ha : isDigitChar a = true :=
        natChars_all_digits _ a (heq ▸ List.mem_cons_self a tl)
      have hdrop : (' ' :: (doubleString q).toList).dropWhile isSpaceChar
          = natChars (k.toNat / 1000000) ++ '.' :: fracSixChars (k.toNat % 1000000) := by
        rw [List.dropWhile_cons]
        simp only [show isSpaceChar ' ' = true from rfl, if_true]
        rw [hbody', heq, List.cons_append, List.dropWhile_cons, space_not_digit ha]
        simp
      have hsgn : splitSign ((' ' :: (doubleString q).toList).dropWhile isSpaceChar)
          = (false, natChars (k.toNat / 1000000) ++ '.' ::
              fracSixChars (k.toNat % 1000000)) := by
        rw [hdrop, heq, List.cons_append, splitSign_digit _ ha, ← List.cons_append, ← heq]
      rw [extractDouble,
        parseFloatChars_core false _ _ (Nat.mod_lt _ (by norm_num)) _ hsgn,
        floatParseVal_plain]
      rw [nat_div_mod_q]
      have hcast : ((k.toNat : ℕ) : ℚ) = (k : ℚ) := by
        exact_mod_cast congrArg (fun z : ℤ => (z : ℚ)) (Int.toNat_of_nonneg hknn)
      rw [hcast, ← hq6]
      simp
  rw [Tuneable.fromString, hw]
  dsimp only
  rw [if_neg (by decide), if_pos (by decide)]
  dsimp only
  rw [hval]

theorem roundHalfEven_of_small (q : ℚ) (h0 : 0 ≤ q) (h : q < 1/2) : roundHalfEven q = 0 := by
  have hfl : ⌊q⌋ = 0 := Int.floor_eq_zero_iff.mpr ⟨h0, by linarith⟩
  unfold roundHalfEven
  rw [hfl]
  rw [if_pos (by push_cast; linarith)]

theorem doubleString_five_halves : doubleString (5/2) = "2.500000" := by
  have habs : |(5/2 : ℚ)| * 1000000 = ((2500000 : ℤ) : ℚ) := by
    rw [abs_of_nonneg (by norm_num)]
    norm_num
  simp only [doubleString, habs, roundHalfEven_intCast]
  rw [if_neg (by norm_num : ¬((5/2 : ℚ) < 0))]
  decide

theorem doubleString_small_dyadic : doubleString (1/2^40) = "0.000000" := by
  have hr : roundHalfEven (|(1/2^40 : ℚ)| * 1000000) = 0 := by
    apply roundHalfEven_of_small
    · positivity
    · rw [abs_of_nonneg (by positivity)]
      norm_num
  simp only [doubleString, hr]
  rw [if_neg (by norm_num : ¬((1/2^40 : ℚ) < 0))]
  decide

theorem fromString_DOUBLE25 (t : Tuneable) :
    (Tuneable.fromString t "DOUBLE 2.5").tuneable.value_ = TuneableValue.doubleVal (5/2) := by
  rw [Tuneable.fromString]
  rw [if_neg (by decide), if_pos (by decide)]
  dsimp only
  rw [show (extractWord "DOUBLE 2.5".toList).2 = " 2.5".toList from by decide]
  rw [extractDouble, show parseFloatChars " 2.5".toList
    = { neg := false, ipart := 2, fpart := 5, flen := 1, eneg := false, expVal := 0,
        ok := true } from by decide]
  congr 1
  rw [floatParseVal]
  norm_num

theorem fromString_DOUBLE000000 (t : Tuneable) :
    (Tuneable.fromString t "DOUBLE 0.000000").tuneable.value_ = TuneableValue.doubleVal 0 := by
  rw [Tuneable.fromString]
  rw [if_neg (by decide), if_pos (by decide)]
  dsimp only
  rw [show (extractWord "DOUBLE 0.000000".toList).2 = " 0.000000".toList from by decide]
  rw [extractDouble, show parseFloatChars " 0.000000".toList
    = { neg := false, ipart := 0, fpart := 0, flen := 6, eneg := false, expVal := 0,
        ok := true } from by decide]
  congr 1
  rw [floatParseVal]
  norm_num

/-- C2 (counterexample): serializing the bound double value 2.5 yields the
line `"DOUBLE 2.500000"` (because `std::to_string(double)` prints six fixed
fraction digits), not `"DOUBLE 2.5"` as the claim states; and the
serialize/deserialize round trip does not restore every `DOUBLE_RANGE` value
bit-for-bit: the exactly-representable double 2⁻⁴⁰ serializes to
`"DOUBLE 0.000000"` and deserializes to 0. -/
theorem tuneable_serialize_claim_cex :
    Tuneable.toString ⟨TuneableValue.doubleVal (5/2), 0, 10, "t", "d"⟩ = "DOUBLE 2.500000" ∧
    "DOUBLE 2.500000" ≠ "DOUBLE 2.5" ∧
    (Tuneable.fromString ⟨TuneableValue.doubleVal (1/2^40), 0, 10, "t", "d"⟩
        (Tuneable.toString ⟨TuneableValue.doubleVal (1/2^40), 0, 10, "t", "d"⟩)).tuneable.value_
      ≠ TuneableValue.doubleVal (1/2^40) := by
  refine ⟨?_, by decide, ?_⟩
  · show "DOUBLE " ++ doubleString (5/2) = "DOUBLE 2.500000"
    rw [doubleString_five_halves]
    decide
  · have hts : Tuneable.toString ⟨TuneableValue.doubleVal (1/2^40), 0, 10, "t", "d"⟩
        = "DOUBLE 0.000000" := by
      show "DOUBLE " ++ doubleString (1/2^40) = "DOUBLE 0.000000"
      rw [doubleString_small_dyadic]
      decide
    rw [hts, fromString_DOUBLE000000]
    intro hcontra
    have : (0 : ℚ) = 1/2^40 := congrArg (fun w => match w with
      | TuneableValue.doubleVal x => x
      | _ => 0) hcontra
    norm_num at this

/-- C2 (amended): `fromString ∘ toString` restores the bound value exactly
for `INT_RANGE` tuneables (whose values fit the 32-bit `int`) and for `BOOL`
tuneables; for `DOUBLE_RANGE` tuneables it restores the value exactly
whenever the value is an integer multiple of 10⁻⁶ (in particular 2.5).
Serializing bound values 5 / 2.5 / `true` yields the lines `"INT 5"`,
`"DOUBLE 2.500000"`, `"BOOL true"`, and deserializing the lines `"INT 5"`,
`"DOUBLE 2.5"`, `"BOOL true"` reproduces the values 5, 2.5, `true`. -/
theorem tuneable_roundtrip_amended :
    (∀ (t : Tuneable) (v : ℤ), t.value_ = TuneableValue.intVal v →
      int32min ≤ v → v ≤ int32max →
      (Tuneable.fromString t (Tuneable.toString t)).tuneable.value_
        = TuneableValue.intVal v) ∧
    (∀ (t : Tuneable) (b : Bool), t.value_ = TuneableValue.boolVal b →
      (Tuneable.fromString t (Tuneable.toString t)).tuneable.value_
        = TuneableValue.boolVal b) ∧
    (∀ (t : Tuneable) (q : ℚ), t.value_ = TuneableValue.doubleVal q →
      (q * 1000000).den = 1 →
      (Tuneable.fromString t (Tuneable.toString t)).tuneable.value_
        = TuneableValue.doubleVal q) ∧
    (∀ mn mx : ℚ, ∀ ti de : String,
      Tuneable.toString ⟨TuneableValue.intVal 5, mn, mx, ti, de⟩ = "INT 5" ∧
      Tuneable.toString ⟨TuneableValue.doubleVal (5/2), mn, mx, ti, de⟩ = "DOUBLE 2.500000" ∧
      Tuneable.toString ⟨TuneableValue.boolVal true, mn, mx, ti, de⟩ = "BOOL true" ∧
      (Tuneable.fromString ⟨TuneableValue.intVal 0, mn, mx, ti, de⟩ "INT 5").tuneable.value_
        = TuneableValue.intVal 5 ∧
      (Tuneable.fromString ⟨TuneableValue.doubleVal 0, mn, mx, ti, de⟩ "DOUBLE 2.5").tuneable.value_
        = TuneableValue.doubleVal (5/2) ∧
      (Tuneable.fromString ⟨TuneableValue.boolVal false, mn, mx, ti, de⟩ "BOOL true").tuneable.value_
        = TuneableValue.boolVal true) := by
  refine ⟨fromString_toString_int, fromString_toString_bool, fromString_toString_double, ?_⟩
  intro mn mx ti de
  refine ⟨?_, ?_, ?_, ?_, fromString_DOUBLE25 _, ?_⟩
  · show "INT " ++ intString 5 = "INT 5"
    decide
  · show "DOUBLE " ++ doubleString (5/2) = "DOUBLE 2.500000"
    rw [doubleString_five_halves]
    decide
  · show "BOOL " ++ (if true then "true" else "false") = "BOOL true"
    decide
  · rw [Tuneable.fromString]
    rw [if_pos (by decide)]
    dsimp only
    decide
  · rw [Tuneable.fromString]
    rw [if_neg (by decide), if_neg (by decide), if_pos (by decide)]
    dsimp only
    decide

/-- Witness for the amended C2 at the concrete bound values 5, 2.5, `true`. -/
theorem tuneable_roundtrip_amended_witness :
    ((⟨TuneableValue.intVal 5, 0, 10, "t", "d"⟩ : Tuneable).value_ = TuneableValue.intVal 5 ∧
      int32min ≤ (5 : ℤ) ∧ (5 : ℤ) ≤ int32max ∧ ((5/2 : ℚ) * 1000000).den = 1) ∧
    (Tuneable.fromString ⟨TuneableValue.intVal 5, 0, 10, "t", "d"⟩
        (Tuneable.toString ⟨TuneableValue.intVal 5, 0, 10, "t", "d"⟩)).tuneable.value_
      = TuneableValue.intVal 5 ∧
    (Tuneable.fromString ⟨TuneableValue.doubleVal (5/2), 0, 10, "t", "d"⟩
        (Tuneable.toString ⟨TuneableValue.doubleVal (5/2), 0, 10, "t", "d"⟩)).tuneable.value_
      = TuneableValue.doubleVal (5/2) ∧
    (Tuneable.fromString ⟨TuneableValue.boolVal true, 0, 10, "t", "d"⟩
        (Tuneable.toString ⟨TuneableValue.boolVal true, 0, 10, "t", "d"⟩)).tuneable.value_
      = TuneableValue.boolVal true :=
  ⟨⟨rfl, by decide, by decide,
    by rw [show ((5/2 : ℚ) * 1000000) = ((2500000 : ℤ) : ℚ) from by norm_num]; exact Rat.den_intCast _⟩,
   tuneable_roundtrip_amended.1 ⟨TuneableValue.intVal 5, 0, 10, "t", "d"⟩ 5 rfl
     (by decide) (by decide),
   tuneable_roundtrip_amended.2.2.1 ⟨TuneableValue.doubleVal (5/2), 0, 10, "t", "d"⟩ (5/2) rfl
     (by rw [show ((5/2 : ℚ) * 1000000) = ((2500000 : ℤ) : ℚ) from by norm_num]; exact Rat.den_intCast _),
   tuneable_roundtrip_amended.2.1 ⟨TuneableValue.boolVal true, 0, 10, "t", "d"⟩ true rfl⟩

/-! ## Trace lemmas for the trainer discipline (claim C3) -/

theorem trainSerialFrom_append (c : ℤ) (t1 t2 : List Ev) :
    trainSerialFrom c (t1 ++ t2)
      = (trainSerialFrom c t1 && trainSerialFrom (c + sumTrainDelta t1) t2) := by
  induction t1 generalizing c with
  | nil => simp [trainSerialFrom, sumTrainDelta]
  | cons e rest ih =>
    simp only [List.cons_append, trainSerialFrom, sumTrainDelta, List.map_cons, List.sum_cons,
      List.append_eq]
    rw [show trainSerialFrom (c + trainDelta e) (rest ++ t2)
        = (trainSerialFrom (c + trainDelta e) rest
            && trainSerialFrom (c + trainDelta e + (rest.map trainDelta).sum) t2) from
      ih (c + trainDelta e)]
    rw [Bool.and_assoc, add_assoc]

theorem keyPressed_chunk_trace (r : Bool) (ld : TrainingData) (st : AppState) (key : ℤ) :
    sumTrainDelta (keyPressed r ld st key).2 = 0 ∧
    trainSerialFrom 0 (keyPressed r ld st key).2 = true := by
  simp only [keyPressed]
  split_ifs <;> constructor <;> dsimp only <;> decide

theorem runKeys_trainSerial (st : AppState) (presses : List (ℤ × Bool × TrainingData)) :
    trainSerial (runKeys st presses).2 = true := by
  induction presses generalizing st with
  | nil => rfl
  | cons p rest ih =>
    obtain ⟨key, r, ld⟩ := p
    simp only [runKeys, trainSerial, trainSerialFrom_append]
    have h := keyPressed_chunk_trace r ld st key
    rw [h.1, h.2]
    simpa [trainSerial] using ih (keyPressed r ld st key).1

theorem updateRow_mem_trace (st : AppState) (row : List ℚ) :
    (Ev.predictPoint ∈ (updateRow st row).2 ↔ st.pipelineTrained = true) ∧
    (Ev.preprocessData ∈ (updateRow st row).2 ↔ st.streamStarted = true) ∧
    (Ev.readFeatureData ∈ (updateRow st row).2 ↔ st.streamStarted = true) := by
  rcases hs : st.streamStarted <;> rcases ht : st.pipelineTrained <;>
    simp [updateRow, hs, ht]

theorem updateRows_mem_trace (rows : List (List ℚ)) (st : AppState) (tr : List Ev)
    (h : tr ∈ (updateRows st rows).2) :
    (Ev.predictPoint ∈ tr ↔ st.pipelineTrained = true) ∧
    (Ev.preprocessData ∈ tr ↔ st.streamStarted = true) ∧
    (Ev.readFeatureData ∈ tr ↔ st.streamStarted = true) := by
  induction rows generalizing st with
  | nil => simp [updateRows] at h
  | cons row rest ih =>
    simp only [updateRows, List.mem_cons] at h
    rcases h with rfl | h
    · exact updateRow_mem_trace st row
    · exact ih (updateRow st row).1 h

/-! ## Claim theorems for the session controller -/

/-- C3: at most one training job is ever in flight — a `'t'` press made while
the prior training thread is joinable joins it first (the join event heads
the handler's trace, before `trainStart`), and across every sequence of key
presses the event trace never has two `train` invocations in flight at
once (the calls run synchronously inside the handler, after the join). -/
theorem trainer_mutual_exclusion (r : Bool) (ld : TrainingData) (st : AppState)
    (h : st.trainingThreadJoinable = true) :
    (keyPressed r ld st 116).2 = [Ev.joinTrainingThread, Ev.trainStart, Ev.trainEnd] ∧
    ∀ (st0 : AppState) (presses : List (ℤ × Bool × TrainingData)),
      trainSerial (runKeys st0 presses).2 = true := by
  refine ⟨?_, fun st0 presses => runKeys_trainSerial st0 presses⟩
  norm_num [keyPressed, h]

/-- Witness for C3 with a joinable prior training thread. -/
theorem trainer_mutual_exclusion_witness :
    (⟨false, 1, [], ⟨0, []⟩, false, Fragment.PIPELINE, true, false, [], true,
        false⟩ : AppState).trainingThreadJoinable = true ∧
    (keyPressed false ⟨0, []⟩
        ⟨false, 1, [], ⟨0, []⟩, false, Fragment.PIPELINE, true, false, [], true, false⟩ 116).2
      = [Ev.joinTrainingThread, Ev.trainStart, Ev.trainEnd] :=
  ⟨rfl, (trainer_mutual_exclusion false ⟨0, []⟩
    ⟨false, 1, [], ⟨0, []⟩, false, Fragment.PIPELINE, true, false, [], true, false⟩ rfl).1⟩

/-- C5: in every iteration of the consumer update loop, `predict` is invoked
on the data point exactly when the pipeline's `trained` flag is true, while
the pre-processing / feature-extraction stages run exactly when the stream
has started — independent of the trained flag. -/
theorem update_predict_gated_by_trained (st : AppState) (tr : List Ev)
    (h : tr ∈ (ofAppUpdate st).2) :
    (Ev.predictPoint ∈ tr ↔ st.pipelineTrained = true) ∧
    (Ev.preprocessData ∈ tr ↔ st.streamStarted = true) ∧
    (Ev.readFeatureData ∈ tr ↔ st.streamStarted = true) :=
  updateRows_mem_trace st.input_data_ st tr h

/-- Witness for C5: one buffered row with the stream started and the
pipeline trained. -/
theorem update_predict_gated_by_trained_witness :
    [Ev.plotInputUpdate, Ev.preprocessData, Ev.readPreprocessedData, Ev.readFeatureData,
        Ev.predictPoint] ∈
      (ofAppUpdate ⟨false, 1, [], ⟨1, []⟩, false, Fragment.PIPELINE, true, true, [[1]],
        false, true⟩).2 ∧
    (Ev.predictPoint ∈ [Ev.plotInputUpdate, Ev.preprocessData, Ev.readPreprocessedData,
        Ev.readFeatureData, Ev.predictPoint] ↔
      (⟨false, 1, [], ⟨1, []⟩, false, Fragment.PIPELINE, true, true, [[1]],
        false, true⟩ : AppState).pipelineTrained = true) :=
  ⟨by decide,
   (update_predict_gated_by_trained
     ⟨false, 1, [], ⟨1, []⟩, false, Fragment.PIPELINE, true, true, [[1]], false, true⟩
     [Ev.plotInputUpdate, Ev.preprocessData, Ev.readPreprocessedData, Ev.readFeatureData,
       Ev.predictPoint] (by decide)).1⟩

/-- C6: a digit key-press while not recording starts a recording with that
key's label and a cleared sample buffer (all other state unchanged, no
events); a digit key-press while already recording changes nothing. -/
theorem keyPressed_recording_transitions (r : Bool) (ld : TrainingData) (st : AppState)
    (key : ℤ) (h1 : 49 ≤ key) (h2 : key ≤ 57) :
    (st.is_recording_ = false →
      (keyPressed r ld st key).1
        = { st with is_recording_ := true, label_ := key - 48, sample_data_ := [] } ∧
      (keyPressed r ld st key).2 = []) ∧
    (st.is_recording_ = true →
      (keyPressed r ld st key).1 = st ∧ (keyPressed r ld st key).2 = []) := by
  have hne : ∀ c : ℤ, 57 < c → ¬(key = c) := fun c hc hk => by omega
  simp only [keyPressed]
  rw [if_neg (hne 116 (by norm_num)), if_neg (hne 108 (by norm_num)),
    if_neg (hne 104 (by norm_num)), if_neg (hne 115 (by norm_num)),
    if_neg (hne 101 (by norm_num)), if_neg (hne 80 (by norm_num)),
    if_neg (hne 84 (by norm_num)), if_neg (hne 65 (by norm_num))]
  constructor
  · intro hrec
    rw [if_pos ⟨h1, h2, hrec⟩]
    exact ⟨rfl, rfl⟩
  · intro hrec
    rw [if_neg (fun hcon => absurd hcon.2.2 (by rw [hrec]; decide))]
    exact ⟨rfl, rfl⟩

/-- Witness for C6 at the digit key `'5'` (code 53) from the idle state. -/
theorem keyPressed_recording_transitions_witness :
    ((49 : ℤ) ≤ 53 ∧ (53 : ℤ) ≤ 57 ∧
      (⟨false, 1, [], ⟨0, []⟩, false, Fragment.PIPELINE, true, false, [], false,
        false⟩ : AppState).is_recording_ = false) ∧
    (keyPressed false ⟨0, []⟩
        ⟨false, 1, [], ⟨0, []⟩, false, Fragment.PIPELINE, true, false, [], false, false⟩ 53).1
      = { (⟨false, 1, [], ⟨0, []⟩, false, Fragment.PIPELINE, true, false, [], false,
            false⟩ : AppState) with
          is_recording_ := true, label_ := 53 - 48, sample_data_ := [] } :=
  ⟨⟨by decide, by decide, rfl⟩,
   ((keyPressed_recording_transitions false ⟨0, []⟩
      ⟨false, 1, [], ⟨0, []⟩, false, Fragment.PIPELINE, true, false, [], false, false⟩ 53
      (by decide) (by decide)).1 rfl).1⟩

/-- C7: if the training thread is joinable when the process exits, `exit`
joins it first — before the stream stop, the training-data save and the
listener removals of the teardown (the join event strictly precedes the
whole teardown trace, which contains no join). -/
theorem exit_joins_training_thread_first (a : Bool) (st : AppState)
    (h : st.trainingThreadJoinable = true) :
    ofAppExit a st = Ev.joinTrainingThread :: exitTeardown a st ∧
    Ev.joinTrainingThread ∉ exitTeardown a st ∧
    Ev.streamStop ∈ exitTeardown a st ∧
    Ev.removeSaveListener ∈ exitTeardown a st := by
  refine ⟨?_, ?_, ?_, ?_⟩
  · rw [ofAppExit, if_pos h]
    rfl
  · rw [exitTeardown]
    split_ifs <;> decide
  · rw [exitTeardown]
    split_ifs <;> decide
  · rw [exitTeardown]
    split_ifs <;> decide

/-- Witness for C7: exiting with a joinable trainer thread and a pending
training-data save. -/
theorem exit_joins_training_thread_first_witness :
    (⟨false, 1, [], ⟨0, []⟩, true, Fragment.PIPELINE, true, true, [], true,
        true⟩ : AppState).trainingThreadJoinable = true ∧
    ofAppExit true ⟨false, 1, [], ⟨0, []⟩, true, Fragment.PIPELINE, true, true, [], true, true⟩
      = Ev.joinTrainingThread :: exitTeardown true
          ⟨false, 1, [], ⟨0, []⟩, true, Fragment.PIPELINE, true, true, [], true, true⟩ :=
  ⟨rfl, (exit_joins_training_thread_first true
    ⟨false, 1, [], ⟨0, []⟩, true, Fragment.PIPELINE, true, true, [], true, true⟩ rfl).1⟩

/-- C10: every key release clears the recording flag, and a release of any
digit key `'1'`..`'9'` passes the current sample buffer to
`training_data_.addSample` under the most recently stored label and marks
the data as needing a save — with no hypothesis on whether a recording was
in progress or on whether the released digit matches the stored label. -/
theorem keyReleased_unconditional_append (st : AppState) (key : ℤ)
    (h1 : 49 ≤ key) (h2 : key ≤ 57) :
    (keyReleased st key).is_recording_ = false ∧
    (keyReleased st key).training_data_
      = st.training_data_.addSample st.label_ st.sample_data_ ∧
    (keyReleased st key).should_save_training_data_ = true ∧
    ∀ k : ℤ, (keyReleased st k).is_recording_ = false := by
  simp only [keyReleased]
  rw [if_pos ⟨h1, h2⟩]
  refine ⟨rfl, rfl, rfl, fun k => ?_⟩
  split_ifs <;> rfl

/-- Witness for C10: releasing `'7'` (code 55) while not recording and with
stored label 3 — the stale buffer is still handed to `addSample` under
label 3. -/
theorem keyReleased_unconditional_append_witness :
    (⟨false, 3, [[1, 2, 3]], ⟨3, []⟩, false, Fragment.PIPELINE, true, false, [], false,
        false⟩ : AppState).is_recording_ = false ∧
    ((49 : ℤ) ≤ 55 ∧ (55 : ℤ) ≤ 57) ∧
    (keyReleased ⟨false, 3, [[1, 2, 3]], ⟨3, []⟩, false, Fragment.PIPELINE, true, false, [],
        false, false⟩ 55).training_data_
      = TrainingData.addSample ⟨3, []⟩ 3 [[1, 2, 3]] :=
  ⟨rfl, ⟨by decide, by decide⟩,
   (keyReleased_unconditional_append
     ⟨false, 3, [[1, 2, 3]], ⟨3, []⟩, false, Fragment.PIPELINE, true, false, [], false, false⟩
     55 (by decide) (by decide)).2.1⟩


/-- C1 (the code evaluated at the claim's failing input): the
recording-completion handler `ofApp::keyReleased` (ofApp.cpp:504-517)
invokes no checker.  With a registered checker returning `FAILURE` for the
collected sequence — `rejectAllChecker` on the buffer `[[1, 2, 3]]` recorded
under label 2 into an empty 3-dimensional dataset — releasing the digit key
`'2'` (code 50) still appends the sample and raises the class tracker for
label 2 from 0 to 1, where the claim (and the checker documentation of
src/unnamed/part_000) requires the checker to run before the append and a
`FAILURE` result to leave the dataset and the class tracker unchanged. -/
theorem keyReleased_ignores_registered_checker :
    (rejectAllChecker
        (⟨true, 2, [[1, 2, 3]], ⟨3, []⟩, false, Fragment.TRAINING, true, true, [], false,
          false⟩ : AppState).sample_data_).result = CheckerOutcome.FAILURE ∧
    (keyReleased ⟨true, 2, [[1, 2, 3]], ⟨3, []⟩, false, Fragment.TRAINING, true, true, [],
        false, false⟩ 50).training_data_.samples = [(2, [[1, 2, 3]])] ∧
    (keyReleased ⟨true, 2, [[1, 2, 3]], ⟨3, []⟩, false, Fragment.TRAINING, true, true, [],
        false, false⟩ 50).training_data_.classTracker 2 = 1 ∧
    (⟨true, 2, [[1, 2, 3]], ⟨3, []⟩, false, Fragment.TRAINING, true, true, [], false,
        false⟩ : AppState).training_data_.classTracker 2 = 0 :=
  ⟨rfl, by decide, by decide, rfl⟩
